import Mathlib

/-!
Shallow embedding of `src/repoed.py`, a CLI tool that aggregates the source
files of a git repository into one markdown document.

Paths and ignore patterns are Lean `String`s.  The tool runs on POSIX, so
`os.sep = "/"` and `os.path.normcase` is the identity; both facts are baked
into the embedding.  Python string operations used by the source
(`startswith`, slicing, `rstrip`, `os.path.basename`, membership tests) are
given explicit executable counterparts on the character list of the string.
-/

namespace Repoed

/-- `os.sep` on POSIX. -/
def osSep : String := "/"

/-- Python `s.startswith(pre)`. -/
def strStartsWith (s pre : String) : Bool := pre.toList.isPrefixOf s.toList

/-- Python `s[1:]`. -/
def strDrop1 (s : String) : String := String.mk s.toList.tail

/-- Python `s.endswith(c)` for a one-character suffix `c`. -/
def strEndsWithChar (s : String) (c : Char) : Bool :=
  match s.toList.getLast? with
  | some d => d == c
  | none => false

/-- Python `s.rstrip('/')`: drop every trailing `'/'`. -/
def rstripSlash (s : String) : String :=
  String.mk ((s.toList.reverse.dropWhile (fun c => c == '/')).reverse)

/-- Python `os.path.basename(s)`: the part of `s` after the last `'/'`. -/
def basename (s : String) : String :=
  String.mk ((s.toList.reverse.takeWhile (fun c => c != '/')).reverse)

/-- `any(char in pattern for char in "*?[")` from `is_ignored`. -/
def hasWildcard (p : String) : Bool :=
  p.toList.any (fun c => c == '*' || c == '?' || c == '[')

/-!
## The `fnmatch` glob engine

`is_ignored` calls `fnmatch.fnmatch(name, pat)`, which translates `pat` into
a regular expression (`fnmatch.translate`) and matches the whole of `name`
against it.  We embed `translate` as a compiler from the pattern's character
list to a token list, and the (anchored, whole-string) regular-expression
match as a recursive matcher on token lists.  The tokens are exactly the
regex pieces `translate` emits: `.*` for `*` (consecutive `*` collapse to
one `.*`, which matches the same strings as two, so we keep them all),
`.` for `?`, a character class for a well-formed `[...]`, and a literal
character otherwise (`re.escape` makes every remaining character literal;
`fnmatch` has no escape character).
-/

inductive GlobTok where
  | star : GlobTok
  | any : GlobTok
  | cls : List Char → GlobTok
  | lit : Char → GlobTok
deriving DecidableEq

/-- Scan for the closing `']'` of a character class; on success return the
characters before it and the rest of the pattern after it. -/
def scanClose : List Char → Option (List Char × List Char)
  | [] => none
  | c :: rest =>
    if c == ']' then some ([], rest)
    else (scanClose rest).map (fun pr => (c :: pr.1, pr.2))

/-- The class-body scan of `fnmatch.translate`: after the opening `'['`,
an initial `'!'` and then an initial `']'` are taken as part of the body
before scanning for the closing `']'`.  Returns the body (negation marker
included) and the rest of the pattern, or `none` when the class is
unterminated. -/
def classSplitAux (cs : List Char) : Option (List Char × List Char) :=
  match cs with
  | '!' :: ']' :: rest => (scanClose rest).map (fun pr => ('!' :: ']' :: pr.1, pr.2))
  | '!' :: rest => (scanClose rest).map (fun pr => ('!' :: pr.1, pr.2))
  | ']' :: rest => (scanClose rest).map (fun pr => (']' :: pr.1, pr.2))
  | rest => (scanClose rest).map (fun pr => (pr.1, pr.2))

/-- `fnmatch.translate`, as a compiler to glob tokens, following its
`if`/`elif` chain over the current character.  Every iteration consumes at
least one character, so recursion on the remaining length as fuel (instead
of well-founded recursion on it) computes the whole pattern and keeps the
function reducible by the kernel; the fuel-exhausted arm is unreachable. -/
def translateAux : Nat → List Char → List GlobTok
  | _, [] => []
  | 0, _ :: _ => []
  | Nat.succ k, c :: p =>
    if c == '*' then GlobTok.star :: translateAux k p
    else if c == '?' then GlobTok.any :: translateAux k p
    else if c == '[' then
      match classSplitAux p with
      | some (stuff, rest) => GlobTok.cls stuff :: translateAux k rest
      | none => GlobTok.lit '[' :: translateAux k p
    else GlobTok.lit c :: translateAux k p

def translate (cs : List Char) : List GlobTok :=
  translateAux cs.length cs

/-- Membership in the body of a character class (negation marker already
removed): `a-b` with `'-'` neither first nor last is a code-point range,
every other character stands for itself. -/
def matchClass : List Char → Char → Bool
  | [], _ => false
  | [a], c => a == c
  | [a, '-'], c => a == c || c == '-'
  | a :: '-' :: b :: rest, c => (a ≤ c && c ≤ b) || matchClass rest c
  | a :: rest, c => a == c || matchClass rest c

/-- A character class with `fnmatch`'s negation rule: a leading `'!'`
complements the class (and `[!]` alone matches any character). -/
def classMatches (stuff : List Char) (c : Char) : Bool :=
  match stuff with
  | '!' :: rest => !(matchClass rest c)
  | _ => matchClass stuff c

/-- The `.*` of a `star` token: try the continuation `f` (the match of the
remaining tokens) on every suffix of the name, the empty one included. -/
def goStar (f : List Char → Bool) : List Char → Bool
  | [] => f []
  | c :: s' => f (c :: s') || goStar f s'

/-- Whole-string match of a token list against a name, as the anchored
regular expression produced by `fnmatch.translate` does: `star` consumes
any run of characters (the separator included), `any` exactly one,
a class or literal exactly one matching character. -/
def matchToks : List GlobTok → List Char → Bool
  | [], s => s.isEmpty
  | GlobTok.star :: p, s => goStar (matchToks p) s
  | GlobTok.any :: p, s =>
    (match s with
     | [] => false
     | _ :: s' => matchToks p s')
  | GlobTok.cls stuff :: p, s =>
    (match s with
     | [] => false
     | c :: s' => classMatches stuff c && matchToks p s')
  | GlobTok.lit ch :: p, s =>
    (match s with
     | [] => false
     | c :: s' => c == ch && matchToks p s')

/-- `fnmatch.fnmatch(name, pat)` (POSIX: `normcase` is the identity). -/
def fnmatch (name pat : String) : Bool :=
  matchToks (translate pat.toList) name.toList

/-!
## `is_ignored`

The per-iteration parsing steps of the `for pattern in ignore_patterns`
loop, in source order: detect and strip the negation marker, then strip a
leading `'/'`.
-/

/-- `pattern.startswith('!')` for the raw line. -/
def negatedOf (p : String) : Bool := strStartsWith p "!"

/-- The pattern after the `if pattern.startswith('!'): pattern = pattern[1:]`
step. -/
def afterNeg (p : String) : String :=
  if strStartsWith p "!" then strDrop1 p else p

/-- The pattern after the `if pattern.startswith('/'): pattern = pattern[1:]`
step. -/
def afterRoot (p : String) : String :=
  if strStartsWith p "/" then strDrop1 p else p

/-- The pattern text the matching branches of `is_ignored` see: negation
marker stripped, then root anchor stripped. -/
def normPat (p : String) : String := afterRoot (afterNeg p)

/-- One iteration of the loop body of `is_ignored`: given the running
`ignore` flag and the raw pattern line, return the new flag.  The three
branches are, in source order: trailing-`'/'` directory patterns (which
`continue` whether or not they match), the literal exact-or-prefix check
for wildcard-free patterns (which `continue`s only on success), and the
`fnmatch` fallback on the full path and on the basename. -/
def processPattern (file_path : String) (ignore : Bool) (pattern0 : String) :
    Bool :=
  if strEndsWithChar (normPat pattern0) '/' then
    if file_path == rstripSlash (normPat pattern0)
        || strStartsWith file_path (rstripSlash (normPat pattern0) ++ osSep)
    then !(negatedOf pattern0)
    else ignore
  else if !(hasWildcard (normPat pattern0))
      && (file_path == normPat pattern0
          || strStartsWith file_path (normPat pattern0 ++ osSep)) then
    !(negatedOf pattern0)
  else if fnmatch file_path (normPat pattern0)
      || fnmatch (basename file_path) (normPat pattern0) then
    !(negatedOf pattern0)
  else ignore

/-- `is_ignored(file_path, ignore_patterns)`: the loop is a left fold of
`processPattern` starting from `ignore = False`. -/
def is_ignored (file_path : String) (ignore_patterns : List String) : Bool :=
  ignore_patterns.foldl (fun ignore p => processPattern file_path ignore p) false

/-- Whether one raw pattern line matches a path: the condition under which
the loop body of `is_ignored` overwrites the running flag. -/
def patternMatches (file_path pattern0 : String) : Bool :=
  if strEndsWithChar (normPat pattern0) '/' then
    file_path == rstripSlash (normPat pattern0)
      || strStartsWith file_path (rstripSlash (normPat pattern0) ++ osSep)
  else if !(hasWildcard (normPat pattern0))
      && (file_path == normPat pattern0
          || strStartsWith file_path (normPat pattern0 ++ osSep)) then
    true
  else
    fnmatch file_path (normPat pattern0)
      || fnmatch (basename file_path) (normPat pattern0)

/-!
## `gather_source_files`

The file system under the current directory is modelled as a tree of named
entries; names are the entry names `os.walk` reports.  `os.walk(".")`,
top-down, yields each directory's regular files before recursing into its
subdirectories, in listing order, and the code removes `".git"` from the
subdirectory list before recursion (directory listings contain distinct
names, so removing the first occurrence and skipping every occurrence
agree).  `rel_path = os.path.join(root, file)` with the leading `"./"`
stripped is `pre ++ name`, where `pre` is `""` at the root and grows by
`dirname ++ "/"` at each descent.
-/

inductive Entry where
  | file : String → Entry
  | dir : String → List Entry → Entry

mutual

/-- The files contributed by one directory's listing: for each regular file,
skip it when its relative path is in `exclude_files` or `is_ignored`,
otherwise report it. -/
def gatherFiles (patterns exclude : List String) (pre : String) :
    List Entry → List String
  | [] => []
  | Entry.file n :: es =>
    (if (pre ++ n) ∈ exclude then []
     else if is_ignored (pre ++ n) patterns then []
     else [pre ++ n]) ++ gatherFiles patterns exclude pre es
  | Entry.dir _ _ :: es => gatherFiles patterns exclude pre es
termination_by es => (sizeOf es, 0)

/-- The recursion of `os.walk` into a directory's subdirectories, in listing
order, with every `".git"` subdirectory removed first. -/
def gatherSubdirs (patterns exclude : List String) (pre : String) :
    List Entry → List String
  | [] => []
  | Entry.file _ :: es => gatherSubdirs patterns exclude pre es
  | Entry.dir n sub :: es =>
    (if n == ".git" then []
     else gatherDir patterns exclude (pre ++ n ++ "/") sub)
      ++ gatherSubdirs patterns exclude pre es
termination_by es => (sizeOf es, 0)

/-- One directory of the walk: its own files first, then the walks of its
surviving subdirectories. -/
def gatherDir (patterns exclude : List String) (pre : String)
    (entries : List Entry) : List String :=
  gatherFiles patterns exclude pre entries
    ++ gatherSubdirs patterns exclude pre entries
termination_by (sizeOf entries, 1)

end

/-- `gather_source_files(ignore_patterns, exclude_files)`: the walk rooted
at the current directory. -/
def gather_source_files (ignore_patterns exclude_files : List String)
    (tree : List Entry) : List String :=
  gatherDir ignore_patterns exclude_files "" tree

mutual

/-- Empty out the contents of every directory named `".git"`, at any
depth. -/
def pruneEntry : Entry → Entry
  | Entry.file n => Entry.file n
  | Entry.dir n es => Entry.dir n (if n == ".git" then [] else pruneList es)

def pruneList : List Entry → List Entry
  | [] => []
  | e :: es => pruneEntry e :: pruneList es

end

/-!
## `read_file_content` and the rendering in `main`

Reading a file either yields its text or raises; the filesystem is modelled
as a map from paths to `Except String String`, an `error e` standing for a
raised exception whose display text is `e`.  The markdown assembly in
`main` is the concatenation of the strings passed to `outfile.write`, in
order.
-/

/-- `read_file_content(file_path)`: the content on success, the
`f"Error reading file: {e}"` message when opening or reading raises. -/
def read_file_content (fs : String → Except String String)
    (file_path : String) : String :=
  match fs file_path with
  | Except.ok content => content
  | Except.error e => "Error reading file: " ++ e

/-- `output_filename = "repoed.md"` in `main`. -/
def output_filename : String := "repoed.md"

/-- `exclude_files = {readme_path, ".gitignore", output_filename}` in
`main` (a set queried only for membership, modelled as a list). -/
def exclude_files : List String := ["README.md", ".gitignore", output_filename]

/-- The commit-messages section of `main`: a header, one bullet per commit
(or the placeholder bullet when the list is empty), then a blank line. -/
def renderCommits (commits : List String) : String :=
  (if !commits.isEmpty then
    "### Last Commits\n" ++ String.join (commits.map (fun c => "- " ++ c ++ "\n"))
  else
    "### Last Commits\n" ++ "- Not committed yet\n") ++ "\n"

/-- The README section of `main`: the header, then either the fenced
content (when `README.md` exists and is not ignored) or the absence bullet,
then the delimiter and blank line. -/
def renderReadme (readmeOnDisk : Bool) (ignore_patterns : List String)
    (fs : String → Except String String) : String :=
  "### README.md\n" ++
    (if readmeOnDisk && !(is_ignored "README.md" ignore_patterns) then
      "\n```\n" ++ (read_file_content fs "README.md" ++ "\n") ++ "```\n"
    else
      "\n- Does not exist\n") ++ "---\n\n"

/-- One per-file section of the final loop of `main`. -/
def renderFileSection (fs : String → Except String String)
    (file : String) : String :=
  "### " ++ file ++ "\n" ++ "\n```\n" ++ (read_file_content fs file ++ "\n")
    ++ "```\n" ++ "---\n\n"

/-- `source_files` after the `source_files.sort()` call of `main`:
Python's sort is lexicographic on strings, and on a type whose order is
antisymmetric every sorting algorithm returns the same list. -/
def sortedSourceFiles (ignore_patterns exclude : List String)
    (tree : List Entry) : List String :=
  List.insertionSort (fun a b : String => a ≤ b)
    (gather_source_files ignore_patterns exclude tree)

/-- Everything `main` writes to `repoed.md`, in order. -/
def renderDoc (commits : List String) (readmeOnDisk : Bool)
    (ignore_patterns : List String) (fs : String → Except String String)
    (tree : List Entry) : String :=
  renderCommits commits ++ renderReadme readmeOnDisk ignore_patterns fs ++
    String.join
      ((sortedSourceFiles ignore_patterns exclude_files tree).map
        (renderFileSection fs))

/-!
## Lemmas about the engine
-/

/-- The loop body either overwrites the flag with `not negated` (when the
pattern matches) or leaves it unchanged. -/
theorem processPattern_eq (fp : String) (ign : Bool) (p : String) :
    processPattern fp ign p =
      if patternMatches fp p then !(negatedOf p) else ign := by
  unfold processPattern patternMatches
  split
  · split
    · simp_all
    · simp_all
  · split
    · simp_all
    · split
      · simp_all
      · simp_all

theorem find?_or_append {α : Type} (p : α → Bool) :
    ∀ l₁ l₂ : List α, (l₁ ++ l₂).find? p = ((l₁.find? p).or (l₂.find? p)) := by
  intro l₁ l₂
  induction l₁ with
  | nil => simp [Option.or]
  | cons a l ih =>
    by_cases h : p a
    · simp [List.find?_cons_of_pos _ h, Option.or]
    · simp [List.find?_cons_of_neg _ h, ih]

/-- The loop of `is_ignored`, started from any flag value, ends at
`not negated` of the last matching pattern, or at the start value when no
pattern matches. -/
theorem foldl_processPattern_eq (fp : String) :
    ∀ (ps : List String) (acc : Bool),
      ps.foldl (fun ignore p => processPattern fp ignore p) acc =
        ((ps.reverse.find? (fun p => patternMatches fp p)).map
            (fun p => !(negatedOf p))).getD acc := by
  intro ps
  induction ps with
  | nil => intro acc; rfl
  | cons p rest ih =>
    intro acc
    simp only [List.foldl_cons, List.reverse_cons]
    rw [ih, find?_or_append]
    rcases hf : rest.reverse.find? (fun q => patternMatches fp q) with _ | q
    · rw [processPattern_eq]
      by_cases hm : patternMatches fp p
      · simp [Option.or, List.find?, hm]
      · simp [Option.or, List.find?, hm]
    · simp [Option.or]

/-- A pattern without wildcard characters compiles to its own characters as
literal tokens. -/
theorem translate_of_noWildcard :
    ∀ cs : List Char,
      cs.any (fun c => c == '*' || c == '?' || c == '[') = false →
      translate cs = cs.map GlobTok.lit := by
  intro cs
  induction cs with
  | nil => intro _; rfl
  | cons c cs ih =>
    intro h
    simp only [List.any_cons, Bool.or_eq_false_iff] at h
    obtain ⟨⟨⟨h1, h2⟩, h3⟩, h4⟩ := h
    show translateAux (c :: cs).length (c :: cs) = _
    simp only [List.length_cons, translateAux, h1, h2, h3, Bool.false_eq_true,
      if_false, List.map]
    exact congrArg _ (ih h4)

/-- A list of literal tokens matches exactly its own characters. -/
theorem matchToks_lit :
    ∀ cs s : List Char, (matchToks (cs.map GlobTok.lit) s = true ↔ s = cs) := by
  intro cs
  induction cs with
  | nil => intro s; cases s <;> simp [matchToks]
  | cons c cs ih =>
    intro s
    cases s with
    | nil => simp [matchToks]
    | cons d s' => simp [matchToks, ih]

/-- `fnmatch` against a wildcard-free pattern is string equality. -/
theorem fnmatch_of_noWildcard (s p : String) (h : hasWildcard p = false) :
    (fnmatch s p = true ↔ s = p) := by
  unfold fnmatch
  rw [translate_of_noWildcard p.toList h, matchToks_lit]
  exact String.toList_inj

/-- A leading `star` token absorbs an arbitrary prefix of the name, the
path separator included. -/
theorem matchToks_star_prefix :
    ∀ (toks : List GlobTok) (s t : List Char),
      matchToks toks t = true →
      matchToks (GlobTok.star :: toks) (s ++ t) = true := by
  intro toks s
  induction s with
  | nil =>
    intro t h
    cases t with
    | nil => exact h
    | cons c t' =>
      show (matchToks toks (c :: t') || goStar (matchToks toks) t') = true
      rw [h, Bool.true_or]
  | cons c s' ih =>
    intro t h
    show (matchToks toks (c :: (s' ++ t)) || goStar (matchToks toks) (s' ++ t))
      = true
    have h2 : goStar (matchToks toks) (s' ++ t) = true := ih t h
    rw [h2, Bool.or_true]

/-!
## Lemmas about the walk
-/

theorem not_mem_gatherFiles_of_mem_exclude (patterns exclude : List String)
    (p : String) (hp : p ∈ exclude) (pre : String) :
    ∀ es : List Entry, p ∉ gatherFiles patterns exclude pre es := by
  intro es
  induction es with
  | nil => simp [gatherFiles]
  | cons e rest ih =>
    cases e with
    | file n =>
      simp only [gatherFiles]
      intro hmem
      rcases List.mem_append.mp hmem with h | h
      · by_cases hex : (pre ++ n) ∈ exclude
        · rw [if_pos hex] at h; simp at h
        · rw [if_neg hex] at h
          by_cases hig : is_ignored (pre ++ n) patterns = true
          · rw [if_pos hig] at h; simp at h
          · rw [if_neg hig] at h
            simp only [List.mem_singleton] at h
            exact hex (h ▸ hp)
      · exact ih h
    | dir n sub =>
      simp only [gatherFiles]
      exact ih

mutual

theorem not_mem_gatherSubdirs_of_mem_exclude (patterns exclude : List String)
    (p : String) (hp : p ∈ exclude) (pre : String) (es : List Entry) :
    p ∉ gatherSubdirs patterns exclude pre es := by
  match es with
  | [] => simp [gatherSubdirs]
  | Entry.file n :: rest =>
    simp only [gatherSubdirs]
    exact not_mem_gatherSubdirs_of_mem_exclude patterns exclude p hp pre rest
  | Entry.dir n sub :: rest =>
    simp only [gatherSubdirs]
    intro hmem
    rcases List.mem_append.mp hmem with h | h
    · by_cases hn : n == ".git"
      · rw [if_pos hn] at h; simp at h
      · rw [if_neg hn] at h
        exact not_mem_gatherDir_of_mem_exclude patterns exclude p hp
          (pre ++ n ++ "/") sub h
    · exact not_mem_gatherSubdirs_of_mem_exclude patterns exclude p hp pre rest h
termination_by (sizeOf es, 0)

theorem not_mem_gatherDir_of_mem_exclude (patterns exclude : List String)
    (p : String) (hp : p ∈ exclude) (pre : String) (es : List Entry) :
    p ∉ gatherDir patterns exclude pre es := by
  rw [gatherDir]
  intro hmem
  rcases List.mem_append.mp hmem with h | h
  · exact not_mem_gatherFiles_of_mem_exclude patterns exclude p hp pre es h
  · exact not_mem_gatherSubdirs_of_mem_exclude patterns exclude p hp pre es h
termination_by (sizeOf es, 1)

end

theorem gatherFiles_pruneList (patterns exclude : List String) (pre : String) :
    ∀ es : List Entry,
      gatherFiles patterns exclude pre (pruneList es) =
        gatherFiles patterns exclude pre es := by
  intro es
  induction es with
  | nil => simp [pruneList]
  | cons e rest ih =>
    cases e with
    | file n => simp only [pruneList, pruneEntry, gatherFiles, ih]
    | dir n sub => simp only [pruneList, pruneEntry, gatherFiles, ih]

mutual

theorem gatherSubdirs_pruneList (patterns exclude : List String) (pre : String)
    (es : List Entry) :
    gatherSubdirs patterns exclude pre (pruneList es) =
      gatherSubdirs patterns exclude pre es := by
  match es with
  | [] => simp [pruneList]
  | Entry.file n :: rest =>
    simp only [pruneList, pruneEntry, gatherSubdirs]
    exact gatherSubdirs_pruneList patterns exclude pre rest
  | Entry.dir n sub :: rest =>
    simp only [pruneList, pruneEntry, gatherSubdirs]
    by_cases hn : n == ".git"
    · rw [if_pos hn, if_pos hn]
      rw [gatherSubdirs_pruneList patterns exclude pre rest]
    · rw [if_neg hn, if_neg hn, if_neg hn]
      rw [gatherSubdirs_pruneList patterns exclude pre rest]
      rw [gatherDir_pruneList patterns exclude (pre ++ n ++ "/") sub]
termination_by (sizeOf es, 0)

theorem gatherDir_pruneList (patterns exclude : List String) (pre : String)
    (es : List Entry) :
    gatherDir patterns exclude pre (pruneList es) =
      gatherDir patterns exclude pre es := by
  rw [gatherDir, gatherDir]
  rw [gatherFiles_pruneList, gatherSubdirs_pruneList patterns exclude pre es]
termination_by (sizeOf es, 1)

end

/-!
## The claims
-/

/-- Claim C1: `is_ignored` evaluates the patterns in original file order and
each matching pattern overwrites the running ignored flag with the negation
of its negated flag, so the last matching rule wins; in particular, for
patterns `["*.log", "!keep.log"]`, `keep.log` is not ignored and
`build.log` is. -/
theorem is_ignored_last_match_wins :
    (∀ (fp : String) (ps : List String),
        is_ignored fp ps =
          ((ps.reverse.find? (fun p => patternMatches fp p)).map
              (fun p => !(negatedOf p))).getD false)
    ∧ is_ignored "keep.log" ["*.log", "!keep.log"] = false
    ∧ is_ignored "build.log" ["*.log", "!keep.log"] = true := by
  refine ⟨?_, by decide, by decide⟩
  intro fp ps
  unfold is_ignored
  exact foldl_processPattern_eq fp ps false

/-- Claim C2, counterexample: the wildcard-free, non-directory pattern
`"vendor"` matches the path `"src/vendor"` (via the `fnmatch` fallback on
the basename), although that path neither equals the pattern text nor
starts with it followed by the separator — refuting the claimed
"if and only if". -/
theorem literal_pattern_iff_counterexample :
    hasWildcard (normPat "vendor") = false
    ∧ strEndsWithChar (normPat "vendor") '/' = false
    ∧ patternMatches "src/vendor" "vendor" = true
    ∧ is_ignored "src/vendor" ["vendor"] = true
    ∧ ("src/vendor" == normPat "vendor") = false
    ∧ strStartsWith "src/vendor" (normPat "vendor" ++ osSep) = false := by
  decide

/-- Claim C2, amended: a non-directory pattern without wildcard characters
matches a path iff the path equals the pattern text, or starts with the
pattern text followed by the separator, or — because a failed literal check
falls through to the `fnmatch` fallback — the path's basename equals the
pattern text.  The spec's examples still hold: `"vendor"` ignores
`"vendor"` and `"vendor/lib.go"` but not `"vendored.go"`. -/
theorem literal_pattern_match :
    (∀ p fp : String, strEndsWithChar (normPat p) '/' = false →
        hasWildcard (normPat p) = false →
        (patternMatches fp p = true ↔
          fp = normPat p ∨ strStartsWith fp (normPat p ++ osSep) = true
            ∨ basename fp = normPat p))
    ∧ is_ignored "vendor" ["vendor"] = true
    ∧ is_ignored "vendor/lib.go" ["vendor"] = true
    ∧ is_ignored "vendored.go" ["vendor"] = false := by
  refine ⟨?_, by decide, by decide, by decide⟩
  intro p fp hdir hw
  unfold patternMatches
  rw [hdir, hw]
  simp only [Bool.false_eq_true, if_false, Bool.not_false, Bool.true_and]
  by_cases hx : (fp == normPat p || strStartsWith fp (normPat p ++ osSep)) = true
  · rw [if_pos hx]
    simp only [true_iff]
    rw [Bool.or_eq_true] at hx
    rcases hx with h | h
    · exact Or.inl (eq_of_beq h)
    · exact Or.inr (Or.inl h)
  · rw [if_neg hx]
    rw [Bool.or_eq_true, not_or] at hx
    obtain ⟨hx1, hx2⟩ := hx
    have hfp : ¬fp = normPat p := fun he => hx1 (by rw [he]; exact beq_self_eq_true _)
    constructor
    · intro hl
      rw [Bool.or_eq_true] at hl
      rcases hl with h | h
      · exact Or.inl ((fnmatch_of_noWildcard _ _ hw).mp h)
      · exact Or.inr (Or.inr ((fnmatch_of_noWildcard _ _ hw).mp h))
    · intro hr
      rcases hr with h | h | h
      · exact absurd h hfp
      · exact absurd h hx2
      · rw [Bool.or_eq_true]
        exact Or.inr ((fnmatch_of_noWildcard _ _ hw).mpr h)

/-- Claim C2, amended, witness: the amended equivalence evaluated at
pattern `"vendor"` and path `"src/vendor"`. -/
theorem literal_pattern_match_witness :
    patternMatches "src/vendor" "vendor" = true ↔
      ("src/vendor" : String) = normPat "vendor"
        ∨ strStartsWith "src/vendor" (normPat "vendor" ++ osSep) = true
        ∨ basename "src/vendor" = normPat "vendor" :=
  literal_pattern_match.1 "vendor" "src/vendor" (by decide) (by decide)

/-- Claim C3: a non-directory pattern containing a wildcard character
matches iff `fnmatch` succeeds on the full path or on its basename; a
leading `star` absorbs any prefix of the name (separators included), and
the unanchored pattern `"*.log"` matches `"a/b/x.log"`. -/
theorem glob_pattern_match :
    (∀ p fp : String, strEndsWithChar (normPat p) '/' = false →
        hasWildcard (normPat p) = true →
        patternMatches fp p =
          (fnmatch fp (normPat p) || fnmatch (basename fp) (normPat p)))
    ∧ (∀ (toks : List GlobTok) (s t : List Char),
        matchToks toks t = true →
        matchToks (GlobTok.star :: toks) (s ++ t) = true)
    ∧ fnmatch "a/b/x.log" "*.log" = true
    ∧ fnmatch (basename "a/b/x.log") "*.log" = true
    ∧ is_ignored "a/b/x.log" ["*.log"] = true := by
  refine ⟨?_, matchToks_star_prefix, by decide, by decide, by decide⟩
  intro p fp hdir hwild
  unfold patternMatches
  rw [hdir, hwild]
  simp

/-- Claim C3, witness: the glob equivalence evaluated at pattern `"*.log"`
and path `"a/b/x.log"`. -/
theorem glob_pattern_match_witness :
    patternMatches "a/b/x.log" "*.log" =
      (fnmatch "a/b/x.log" (normPat "*.log")
        || fnmatch (basename "a/b/x.log") (normPat "*.log")) :=
  glob_pattern_match.1 "*.log" "a/b/x.log" (by decide) (by decide)

/-- Claim C4: a directory-only pattern (written with a trailing `'/'`,
matched against its text with the trailing slashes stripped) matches iff
the path equals the stripped text or starts with it followed by the
separator; `"dist/"` ignores `"dist"` and `"dist/app.js"` but not
`"mydist/app.js"`. -/
theorem directory_pattern_match :
    (∀ p fp : String, strEndsWithChar (normPat p) '/' = true →
        patternMatches fp p =
          (fp == rstripSlash (normPat p)
            || strStartsWith fp (rstripSlash (normPat p) ++ osSep)))
    ∧ is_ignored "dist" ["dist/"] = true
    ∧ is_ignored "dist/app.js" ["dist/"] = true
    ∧ is_ignored "mydist/app.js" ["dist/"] = false := by
  refine ⟨?_, by decide, by decide, by decide⟩
  intro p fp hdir
  unfold patternMatches
  rw [hdir]
  simp

/-- Claim C4, witness: the directory-pattern equivalence evaluated at
pattern `"dist/"` and path `"dist/app.js"`. -/
theorem directory_pattern_match_witness :
    patternMatches "dist/app.js" "dist/" =
      (("dist/app.js" == rstripSlash (normPat "dist/"))
        || strStartsWith "dist/app.js" (rstripSlash (normPat "dist/") ++ osSep)) :=
  directory_pattern_match.1 "dist/" "dist/app.js" (by decide)

/-- Claim C5: discovery is deterministic (it is a pure function of the
tree, the patterns and the exclusion set), and the list used for rendering
is sorted in ordinary lexicographic string order, containing exactly the
walked files. -/
theorem discovery_sorted_deterministic :
    ∀ (patterns exclude : List String) (tree : List Entry),
      gather_source_files patterns exclude tree =
          gather_source_files patterns exclude tree
        ∧ List.Sorted (fun a b : String => a ≤ b)
            (sortedSourceFiles patterns exclude tree)
        ∧ List.Perm (sortedSourceFiles patterns exclude tree)
            (gather_source_files patterns exclude tree) := by
  intro patterns exclude tree
  exact ⟨rfl, List.sorted_insertionSort _ _, List.perm_insertionSort _ _⟩

/-- Claim C6: with no commits the commits section is exactly the header,
the "Not committed yet" bullet and a blank line; when `README.md` is absent
or ignored the README section is exactly its header, the "Does not exist"
bullet, the delimiter and a blank line; and every per-file section carries
its delimiter and blank line at its end, once. -/
theorem placeholder_sections :
    renderCommits [] = "### Last Commits\n- Not committed yet\n\n"
    ∧ (∀ (patterns : List String) (fs : String → Except String String)
        (onDisk : Bool),
        onDisk = false ∨ is_ignored "README.md" patterns = true →
        renderReadme onDisk patterns fs =
          "### README.md\n\n- Does not exist\n---\n\n")
    ∧ (∀ (fs : String → Except String String) (f : String),
        renderFileSection fs f =
          ("### " ++ f ++ "\n" ++ "\n```\n" ++ (read_file_content fs f ++ "\n")
            ++ "```\n") ++ "---\n\n") := by
  refine ⟨by decide, ?_, fun fs f => rfl⟩
  intro patterns fs onDisk h
  unfold renderReadme
  rcases h with h | h
  · rw [h]
    rfl
  · rw [h]
    simp only [Bool.not_true, Bool.and_false, Bool.false_eq_true, if_false]
    rfl

/-- Claim C6, witness: the README section with an absent README. -/
theorem placeholder_sections_witness :
    renderReadme false ["*.log"] (fun _ => Except.error "absent") =
      "### README.md\n\n- Does not exist\n---\n\n" :=
  placeholder_sections.2.1 ["*.log"] (fun _ => Except.error "absent") false
    (Or.inl rfl)

/-- Claim C7: a path in the exclusion set never appears in the discovered
list, whatever the ignore patterns; in particular `README.md` and
`.gitignore` never appear among the rendered "other files". -/
theorem exclusion_always_wins :
    (∀ (patterns exclude : List String) (tree : List Entry) (p : String),
        p ∈ exclude → p ∉ gather_source_files patterns exclude tree)
    ∧ (∀ (patterns : List String) (tree : List Entry),
        "README.md" ∉ sortedSourceFiles patterns exclude_files tree
        ∧ ".gitignore" ∉ sortedSourceFiles patterns exclude_files tree) := by
  have hmain : ∀ (patterns exclude : List String) (tree : List Entry)
      (p : String), p ∈ exclude → p ∉ gather_source_files patterns exclude tree := by
    intro patterns exclude tree p hp
    exact not_mem_gatherDir_of_mem_exclude patterns exclude p hp "" tree
  refine ⟨hmain, ?_⟩
  intro patterns tree
  constructor
  · intro hmem
    have h2 := (List.perm_insertionSort
      (fun a b : String => a ≤ b) _).mem_iff.mp hmem
    exact hmain patterns exclude_files tree "README.md"
      (by simp [exclude_files]) h2
  · intro hmem
    have h2 := (List.perm_insertionSort
      (fun a b : String => a ≤ b) _).mem_iff.mp hmem
    exact hmain patterns exclude_files tree ".gitignore"
      (by simp [exclude_files]) h2

/-- Claim C7, witness: `README.md` is excluded from a tree that contains
it, even with an empty rule set. -/
theorem exclusion_always_wins_witness :
    "README.md" ∉ gather_source_files [] exclude_files [Entry.file "README.md"] :=
  exclusion_always_wins.1 [] exclude_files [Entry.file "README.md"] "README.md"
    (by decide)

/-- Claim C8: a failing read yields the textual error message rather than a
fault, the file's single section carries that message as its content, and
rendering still produces exactly one section per discovered file. -/
theorem read_error_renders_section :
    ∀ (fs : String → Except String String) (f e : String),
      fs f = Except.error e →
      read_file_content fs f = "Error reading file: " ++ e
      ∧ renderFileSection fs f =
          "### " ++ f ++ "\n" ++ "\n```\n"
            ++ (("Error reading file: " ++ e) ++ "\n") ++ "```\n" ++ "---\n\n"
      ∧ ∀ files : List String,
          (files.map (renderFileSection fs)).length = files.length := by
  intro fs f e h
  have h1 : read_file_content fs f = "Error reading file: " ++ e := by
    unfold read_file_content
    rw [h]
  refine ⟨h1, ?_, fun files => List.length_map _ _⟩
  unfold renderFileSection
  rw [h1]

/-- Claim C8, witness: the error note produced for an unreadable file. -/
theorem read_error_renders_section_witness :
    read_file_content (fun _ => Except.error "No such file or directory")
        "a.py" = "Error reading file: " ++ "No such file or directory" :=
  (read_error_renders_section
    (fun _ => Except.error "No such file or directory") "a.py"
    "No such file or directory" rfl).1

/-- Claim C9: the walk is independent of the contents of every directory
named `.git`, at any depth — emptying all of them changes nothing — and a
`.git` subdirectory contributes nothing to the walk of its parent, so
nothing inside the metadata directory is ever reported. -/
theorem git_never_traversed :
    ∀ (patterns exclude : List String) (pre : String) (es : List Entry),
      gatherDir patterns exclude pre es
          = gatherDir patterns exclude pre (pruneList es)
        ∧ ∀ sub rest : List Entry,
            gatherSubdirs patterns exclude pre (Entry.dir ".git" sub :: rest)
              = gatherSubdirs patterns exclude pre rest := by
  intro patterns exclude pre es
  constructor
  · exact (gatherDir_pruneList patterns exclude pre es).symm
  · intro sub rest
    simp [gatherSubdirs]

/-- Claim C10: the exclusion set of `main` contains the output filename
`repoed.md`, so the rendered list of file sections never includes the
output file, even when it is present in the walked tree. -/
theorem output_file_never_aggregated :
    output_filename ∈ exclude_files
    ∧ ∀ (patterns : List String) (tree : List Entry),
        output_filename ∉ sortedSourceFiles patterns exclude_files tree := by
  constructor
  · simp [exclude_files]
  · intro patterns tree hmem
    have h2 := (List.perm_insertionSort
      (fun a b : String => a ≤ b) _).mem_iff.mp hmem
    exact not_mem_gatherDir_of_mem_exclude patterns exclude_files
      output_filename (by simp [exclude_files]) "" tree h2

end Repoed
